import Mathlib
/-!
Verification of the signed-artifact subsystem of an OIDC identity provider.

The development shallowly embeds the TypeScript code of `src/tools/jwt.ts`
(JWT signing/verification, PKCE), `src/db/memory.ts` (the in-memory token
registry with its expiry sweep) and the relying-party cookie codec
(`createSignedCookie` / `parseSignedCookie` / `verifyAndDecodeData`).

Modelling conventions:
* JavaScript strings are `List Char`; `str` injects Lean string literals.
* Byte arrays are `List Nat` with every entry `< 256` where it matters.
* `TextEncoder`/`TextDecoder` (string ↔ UTF-8 bytes) are modelled by
  `strBytes`/`bytesToStr`, a fixed-width three-bytes-per-scalar-value
  injective byte coding; the development relies only on the conversion
  being an injective, decodable byte coding, which UTF-8 is.
* `encodeBase64Url`/`decodeBase64Url` are the real unpadded base64url
  algorithm over byte lists.
* `JSON.stringify`/`JSON.parse` are modelled for the flat objects the code
  serializes (string- and integer-valued fields).  Control characters are
  carried literally instead of `\u`-escaped, and parsed documents are
  restricted to objects, which is the only shape the codec produces; the
  round-trip and comparison behaviour relied on here is unaffected.
* HMAC-SHA256 and SHA-256 are uninterpreted: every definition and theorem
  is parameterized by the `mac` (resp. `sha`) function, since the verified
  properties are relational (the same function is applied on both sides).
-/

/-! ## Definitions -/

/-- Characters of a Lean string literal, the model of a JavaScript string. -/
def str (s : String) : List Char := s.data

/-- Fixed-width byte coding of one Unicode scalar value (three bytes,
big-endian).  Stands in for UTF-8: the development only uses that the
coding is injective, byte-valued and decodable. -/
def charBytes (c : Char) : List Nat :=
  [c.toNat / 65536, c.toNat / 256 % 256, c.toNat % 256]

/-- String to bytes (model of `TextEncoder.encode`); each scalar value
contributes its `charBytes`. -/
def strBytes : List Char → List Nat
  | [] => []
  | c :: cs => c.toNat / 65536 :: c.toNat / 256 % 256 :: c.toNat % 256 :: strBytes cs

/-- Bytes to string (model of `TextDecoder.decode`), failing on ragged input. -/
def bytesToStr : List Nat → Option (List Char)
  | [] => some []
  | x :: y :: z :: rest =>
    (bytesToStr rest).map (fun cs => Char.ofNat (x * 65536 + y * 256 + z) :: cs)
  | _ => none

/-- The base64url alphabet. -/
def b64Alphabet : List Char :=
  str "ABCDEFGHIJKLMNOPQRSTUVWXYZabcdefghijklmnopqrstuvwxyz0123456789-_"

/-- Character for a six-bit group. -/
def b64Char (n : Nat) : Char := b64Alphabet.getD n 'A'

/-- Six-bit group for a character, `none` outside the alphabet. -/
def b64CharInv (c : Char) : Option Nat := b64Alphabet.findIdx? (· = c)

/-- Unpadded base64url encoding of a byte list. -/
def b64Encode : List Nat → List Char
  | [] => []
  | [a] => [b64Char (a / 4), b64Char (a % 4 * 16)]
  | [a, b] => [b64Char (a / 4), b64Char (a % 4 * 16 + b / 16), b64Char (b % 16 * 4)]
  | a :: b :: c :: rest =>
    b64Char (a / 4) :: b64Char (a % 4 * 16 + b / 16) :: b64Char (b % 16 * 4 + c / 64) ::
      b64Char (c % 64) :: b64Encode rest

/-- Unpadded base64url decoding of a character list. -/
def b64Decode : List Char → Option (List Nat)
  | [] => some []
  | [_] => none
  | [c1, c2] =>
    match b64CharInv c1, b64CharInv c2 with
    | some d1, some d2 => some [d1 * 4 + d2 / 16]
    | _, _ => none
  | [c1, c2, c3] =>
    match b64CharInv c1, b64CharInv c2, b64CharInv c3 with
    | some d1, some d2, some d3 => some [d1 * 4 + d2 / 16, d2 % 16 * 16 + d3 / 4]
    | _, _, _ => none
  | c1 :: c2 :: c3 :: c4 :: rest =>
    match b64CharInv c1, b64CharInv c2, b64CharInv c3, b64CharInv c4, b64Decode rest with
    | some d1, some d2, some d3, some d4, some tail =>
      some ((d1 * 4 + d2 / 16) :: (d2 % 16 * 16 + d3 / 4) :: (d3 % 4 * 64 + d4) :: tail)
    | _, _, _, _, _ => none

/-- Base64url of the byte coding of a string: the composition
`encodeBase64Url(new TextEncoder().encode(s))` used throughout the code. -/
def b64OfStr (s : List Char) : List Char := b64Encode (strBytes s)

/-- Inverse composition `TextDecoder.decode(decodeBase64Url(cs))`, with every
failure (a `decodeBase64Url` exception in the source) collapsed to `none`. -/
def b64DecodeStr (cs : List Char) : Option (List Char) :=
  (b64Decode cs).bind bytesToStr

/-- A JSON value of the shapes the code serializes: strings and integers. -/
inductive JVal where
  | jstr : List Char → JVal
  | jnum : Int → JVal
deriving DecidableEq, Repr

/-- A flat JSON object: ordered key/value pairs, as JavaScript objects are. -/
abbrev JObj := List (List Char × JVal)

/-- First-match association lookup: the model of JavaScript property access
and of `Map.get` (both structures keep keys unique). -/
def assocGet {α : Type} : List (List Char × α) → List Char → Option α
  | [], _ => none
  | (k2, v) :: rest, k => if k2 = k then some v else assocGet rest k

/-- Backslash-escaping of `"` and `\` inside a JSON string literal. -/
def escapeStr : List Char → List Char
  | [] => []
  | c :: cs => if c = '"' ∨ c = '\\' then '\\' :: c :: escapeStr cs else c :: escapeStr cs

/-- A JSON string literal. -/
def stringifyStr (s : List Char) : List Char := '"' :: (escapeStr s ++ ['"'])

/-- The decimal digit character for `d < 10`. -/
def digitChar : Nat → Char
  | 0 => '0' | 1 => '1' | 2 => '2' | 3 => '3' | 4 => '4'
  | 5 => '5' | 6 => '6' | 7 => '7' | 8 => '8' | _ => '9'

/-- Decimal rendering of a natural number, most significant digit first. -/
def natToDigits (n : Nat) : List Char :=
  if n < 10 then [digitChar n]
  else natToDigits (n / 10) ++ [digitChar (n % 10)]
decreasing_by exact Nat.div_lt_self (by omega) (by omega)

/-- Decimal rendering of an integer (model of number serialization). -/
def stringifyInt (n : Int) : List Char :=
  if n < 0 then '-' :: natToDigits n.natAbs else natToDigits n.natAbs

/-- Serialization of a JSON value. -/
def stringifyVal : JVal → List Char
  | .jstr s => stringifyStr s
  | .jnum n => stringifyInt n

/-- Serialization of one `"key":value` entry. -/
def entryChars (kv : List Char × JVal) : List Char :=
  stringifyStr kv.1 ++ ':' :: stringifyVal kv.2

/-- Comma-separated serialization of an object's entries. -/
def stringifyEntries : JObj → List Char
  | [] => []
  | [kv] => entryChars kv
  | kv :: rest => entryChars kv ++ ',' :: stringifyEntries rest

/-- Serialization of a flat object (model of `JSON.stringify`). -/
def stringifyObj (o : JObj) : List Char :=
  '\x7b' :: (stringifyEntries o ++ ['\x7d'])

/-- Parse the body of a string literal after the opening quote; a backslash
takes the next character literally. -/
def parseStrBody : List Char → Option (List Char × List Char)
  | [] => none
  | c :: rest =>
    if c = '"' then some ([], rest)
    else if c = '\\' then
      match rest with
      | [] => none
      | e :: rest2 => (parseStrBody rest2).map (fun p => (e :: p.1, p.2))
    else (parseStrBody rest).map (fun p => (c :: p.1, p.2))

/-- Numeric value of a digit character. -/
def charToDigit (c : Char) : Nat := c.toNat - 48

/-- Consume leading digits, folding them onto an accumulator. -/
def parseDigitsAcc : Nat → List Char → Nat × List Char
  | acc, [] => (acc, [])
  | acc, c :: rest =>
    if c.isDigit then parseDigitsAcc (acc * 10 + charToDigit c) rest else (acc, c :: rest)

/-- Parse a nonempty digit run as a natural number. -/
def parseNatChars : List Char → Option (Nat × List Char)
  | [] => none
  | c :: rest =>
    if c.isDigit then some (parseDigitsAcc (charToDigit c) rest) else none

/-- Parse an optionally signed integer literal. -/
def parseNum : List Char → Option (Int × List Char)
  | '-' :: rest => (parseNatChars rest).map (fun p => (-(p.1 : Int), p.2))
  | cs => (parseNatChars cs).map (fun p => ((p.1 : Int), p.2))

/-- Parse a JSON value (string or number). -/
def parseVal (cs : List Char) : Option (JVal × List Char) :=
  match cs with
  | '"' :: rest => (parseStrBody rest).map (fun p => (JVal.jstr p.1, p.2))
  | _ => (parseNum cs).map (fun p => (JVal.jnum p.1, p.2))

/-- Parse a nonempty comma-separated entry list; the fuel bounds recursion
depth and is instantiated with the input length, which always suffices. -/
def parseEntries : Nat → List Char → Option (JObj × List Char)
  | 0, _ => none
  | fuel + 1, cs =>
    match cs with
    | '"' :: rest =>
      match parseStrBody rest with
      | none => none
      | some (k, r1) =>
        match r1 with
        | ':' :: r2 =>
          match parseVal r2 with
          | none => none
          | some (v, r3) =>
            match r3 with
            | ',' :: r4 =>
              match parseEntries fuel r4 with
              | none => none
              | some (o, r5) => some ((k, v) :: o, r5)
            | _ => some ([(k, v)], r3)
        | _ => none
    | _ => none

/-- Parse a flat JSON object. -/
def parseObj (cs : List Char) : Option (JObj × List Char) :=
  match cs with
  | '\x7b' :: '\x7d' :: rest => some ([], rest)
  | '\x7b' :: rest =>
    match parseEntries rest.length rest with
    | some (o, '\x7d' :: r2) => some (o, r2)
    | _ => none
  | _ => none

/-- Model of `JSON.parse` restricted to complete flat objects; every parse
failure (an exception in the source) is `none`. -/
def jsonParse (cs : List Char) : Option JObj :=
  match parseObj cs with
  | some (o, []) => some o
  | _ => none

/-- Is the next character a digit (used to state where a digit run stops). -/
def digitHead : List Char → Bool
  | [] => false
  | c :: _ => c.isDigit

/-- One decimal-digit folding step. -/
def digitFold (acc : Nat) (c : Char) : Nat := acc * 10 + charToDigit c

/-- Split a string at every dot (model of `token.split(".")`). -/
def splitOnDot : List Char → List (List Char)
  | [] => [[]]
  | c :: rest =>
    if c = '.' then [] :: splitOnDot rest
    else
      match splitOnDot rest with
      | [] => [[c]]
      | s :: ss => (c :: s) :: ss

/-- The fixed JWT header `{"alg":"HS256","typ":"JWT"}` built by `signJwt`. -/
def headerObj : JObj := [(str "alg", .jstr (str "HS256")), (str "typ", .jstr (str "JWT"))]

/-- JavaScript object-spread `{ ...base, ...upd }` restricted to the use in
`signJwt`: keys of `base` keep their positions (values overridden by `upd`
where present), then the keys of `upd` not in `base` follow in order. -/
def jsSpread (base upd : JObj) : JObj :=
  base.map (fun kv =>
    match assocGet upd kv.1 with
    | some v => (kv.1, v)
    | none => kv) ++
  upd.filter (fun kv => (assocGet base kv.1).isNone)

/-- `signJwt(payload)` from src/tools/jwt.ts: the full payload prepends the
issuer and issued-at claims, both segments are base64url-encoded JSON, and
the third segment is the base64url HMAC-SHA256 tag over the first two.
The signing instant and the secret (environment state in the source) are
explicit arguments; `mac` is the HMAC-SHA256 primitive. -/
def signJwt (mac : List Nat → List Nat → List Nat) (secret issuer : List Char)
    (payload : JObj) (now : Int) : List Char :=
  let fullPayload := jsSpread [(str "iss", .jstr issuer), (str "iat", .jnum now)] payload
  let headerB64 := b64OfStr (stringifyObj headerObj)
  let payloadB64 := b64OfStr (stringifyObj fullPayload)
  let signingInput := headerB64 ++ '.' :: payloadB64
  signingInput ++ '.' :: b64Encode (mac (strBytes secret) (strBytes signingInput))

/-- JavaScript truthiness of the values a payload field can hold. -/
def jsTruthy : JVal → Bool
  | .jnum n => decide (n ≠ 0)
  | .jstr s => decide (s ≠ [])

/-- The comparison `payload.exp < now`; a string compares through numeric
coercion, integer-literal strings being the case the model covers (a
non-numeric string is NaN and every NaN comparison is false). -/
def jsLtNum : JVal → Int → Bool
  | .jnum e, now => decide (e < now)
  | .jstr s, now =>
    match parseNum s with
    | some (e, []) => decide (e < now)
    | _ => false

/-- `verifyAndDecodeJwt(token)` from src/tools/jwt.ts: split on dots,
require exactly three segments, compare the third segment against the
recomputed tag before anything else, then decode and parse the payload and
reject when `payload.exp && payload.exp < now`; any exception (undecodable
base64url, unparsable JSON) yields `null`. -/
def verifyAndDecodeJwt (mac : List Nat → List Nat → List Nat) (secret : List Char)
    (token : List Char) (now : Int) : Option JObj :=
  match splitOnDot token with
  | [headerB64, payloadB64, signatureB64] =>
    if signatureB64 ≠ b64Encode (mac (strBytes secret) (strBytes (headerB64 ++ '.' :: payloadB64)))
    then none
    else
      match b64DecodeStr payloadB64 with
      | none => none
      | some txt =>
        match jsonParse txt with
        | none => none
        | some payload =>
          match assocGet payload (str "exp") with
          | some expVal =>
            if jsTruthy expVal && jsLtNum expVal now then none else some payload
          | none => some payload
  | _ => none

/-- `verifyCodeChallenge(codeVerifier, codeChallenge, method)` from
src/tools/jwt.ts; `sha` is the SHA-256 primitive. -/
def verifyCodeChallenge (sha : List Nat → List Nat)
    (codeVerifier codeChallenge method : List Char) : Bool :=
  if method = str "plain" then decide (codeVerifier = codeChallenge)
  else if method = str "S256" then
    decide (b64Encode (sha (strBytes codeVerifier)) = codeChallenge)
  else false

/-- Result shape of the `verify_authorization_code` tool call: either the
one generic error object or the embedded fields of the grant. -/
inductive VerifyCodeResult where
  | invalid (error : List Char)
  | valid (client_id user_id redirect_uri scope code_challenge code_challenge_method
      nonce : Option JVal)
deriving DecidableEq, Repr

/-- The `verify_authorization_code` branch of `executeToolCall` in
src/tools/jwt.ts: verify the code, reject a missing payload or a payload
whose `type` is not `"authorization_code"` with the single error message,
otherwise return the embedded fields. -/
def verifyAuthorizationCodeTool (mac : List Nat → List Nat → List Nat)
    (secret code : List Char) (now : Int) : VerifyCodeResult :=
  match verifyAndDecodeJwt mac secret code now with
  | none => .invalid (str "Invalid or expired authorization code")
  | some payload =>
    if assocGet payload (str "type") ≠ some (.jstr (str "authorization_code")) then
      .invalid (str "Invalid or expired authorization code")
    else
      .valid (assocGet payload (str "client_id")) (assocGet payload (str "user_id"))
        (assocGet payload (str "redirect_uri")) (assocGet payload (str "scope"))
        (assocGet payload (str "code_challenge"))
        (assocGet payload (str "code_challenge_method"))
        (assocGet payload (str "nonce"))

/-- `AuthorizationCode` record of src/db/memory.ts. -/
structure AuthorizationCode where
  code : List Char
  client_id : List Char
  user_id : List Char
  redirect_uri : List Char
  scope : List Char
  code_challenge : Option (List Char)
  code_challenge_method : Option (List Char)
  nonce : Option (List Char)
  expires_at : Int
  used : Bool
deriving DecidableEq, Repr

/-- `AccessToken` record of src/db/memory.ts. -/
structure AccessToken where
  token : List Char
  client_id : List Char
  user_id : List Char
  scope : List Char
  expires_at : Int
deriving DecidableEq, Repr

/-- `RefreshToken` record of src/db/memory.ts. -/
structure RefreshToken where
  token : List Char
  client_id : List Char
  user_id : List Char
  scope : List Char
  expires_at : Int
deriving DecidableEq, Repr

/-- The three keyed stores of `MemoryDB`; JavaScript `Map`s keep keys
unique and preserve insertion order, modelled as association lists. -/
structure MemoryDBState where
  authorizationCodes : List (List Char × AuthorizationCode)
  accessTokens : List (List Char × AccessToken)
  refreshTokens : List (List Char × RefreshToken)
deriving DecidableEq, Repr

/-- `MemoryDB.getAuthorizationCode`. -/
def getAuthorizationCode (db : MemoryDBState) (code : List Char) : Option AuthorizationCode :=
  assocGet db.authorizationCodes code

/-- `MemoryDB.getAccessToken`. -/
def getAccessToken (db : MemoryDBState) (token : List Char) : Option AccessToken :=
  assocGet db.accessTokens token

/-- `MemoryDB.getRefreshToken`. -/
def getRefreshToken (db : MemoryDBState) (token : List Char) : Option RefreshToken :=
  assocGet db.refreshTokens token

/-- `MemoryDB.cleanupExpiredTokens`: delete, from each of the three maps,
every record with `expires_at < now` (strict comparison in the source). -/
def cleanupExpiredTokens (db : MemoryDBState) (now : Int) : MemoryDBState where
  authorizationCodes := db.authorizationCodes.filter (fun kv => !decide (kv.2.expires_at < now))
  accessTokens := db.accessTokens.filter (fun kv => !decide (kv.2.expires_at < now))
  refreshTokens := db.refreshTokens.filter (fun kv => !decide (kv.2.expires_at < now))

/-- `signData(data)`: base64url HMAC-SHA256 tag over the data under the
session secret. -/
def signData (mac : List Nat → List Nat → List Nat) (secret data : List Char) : List Char :=
  b64Encode (mac (strBytes secret) (strBytes data))

/-- `verifyAndDecodeData(signedData)`: split on dots, require exactly two
segments, compare the tag, then base64url-decode the payload segment;
every failure is `null`. -/
def verifyAndDecodeData (mac : List Nat → List Nat → List Nat)
    (secret signedData : List Char) : Option (List Char) :=
  match splitOnDot signedData with
  | [data, signature] =>
    if signature ≠ signData mac secret data then none
    else b64DecodeStr data
  | _ => none

/-- `createSignedCookie(data)`: base64url-encoded JSON payload joined with
its tag by a dot. -/
def createSignedCookie (mac : List Nat → List Nat → List Nat)
    (secret : List Char) (data : JObj) : List Char :=
  let encoded := b64OfStr (stringifyObj data)
  encoded ++ '.' :: signData mac secret encoded

/-- `parseSignedCookie(cookie)`: open the capsule and JSON-parse the
payload, propagating every failure as `null`. -/
def parseSignedCookie (mac : List Nat → List Nat → List Nat)
    (secret cookie : List Char) : Option JObj :=
  match verifyAndDecodeData mac secret cookie with
  | none => none
  | some decoded => jsonParse decoded

/-- A concrete stand-in for the HMAC-SHA256 primitive, used to instantiate
the `mac` parameter on concrete inputs. -/
def macExample (key data : List Nat) : List Nat := (key ++ data).map (· % 256)

/-- A concrete stand-in for the SHA-256 primitive, used to instantiate the
`sha` parameter on concrete inputs. -/
def shaExample (data : List Nat) : List Nat := data.reverse.map (· % 256)

/-! ## Supporting lemmas and claim theorems -/

theorem char_toNat_lt (c : Char) : c.toNat < 1114112 := by
  rcases c.valid with h | ⟨_, h⟩
  · exact Nat.lt_trans h (by decide)
  · exact h

theorem strBytes_lt (s : List Char) : ∀ x ∈ strBytes s, x < 256 := by
  induction s with
  | nil => simp [strBytes]
  | cons c cs ih =>
    have h := char_toNat_lt c
    simp only [strBytes, List.mem_cons]
    rintro x (rfl | rfl | rfl | hx)
    · omega
    · omega
    · omega
    · exact ih x hx

theorem bytesToStr_strBytes (s : List Char) : bytesToStr (strBytes s) = some s := by
  induction s with
  | nil => rfl
  | cons c cs ih =>
    have h := char_toNat_lt c
    simp only [strBytes, bytesToStr, ih, Option.map_some]
    have hn : c.toNat / 65536 * 65536 + c.toNat / 256 % 256 * 256 + c.toNat % 256 = c.toNat := by
      omega
    rw [hn, Char.ofNat_toNat]
    rfl

theorem b64CharInv_b64Char : ∀ n, n < 64 → b64CharInv (b64Char n) = some n := by decide

theorem b64Char_ne_dot (n : Nat) : b64Char n ≠ '.' := by
  rcases Nat.lt_or_ge n 64 with h | h
  · exact (by decide : ∀ m, m < 64 → b64Char m ≠ '.') n h
  · unfold b64Char
    rw [List.getD_eq_default]
    · decide
    · have : b64Alphabet.length = 64 := by decide
      omega

theorem b64Encode_not_dot (l : List Nat) : '.' ∉ b64Encode l := by
  induction l using b64Encode.induct with
  | case1 => simp [b64Encode]
  | case2 a =>
    simp only [b64Encode, List.mem_cons, List.not_mem_nil, or_false]
    rintro (h | h) <;> exact b64Char_ne_dot _ h.symm
  | case3 a b =>
    simp only [b64Encode, List.mem_cons, List.not_mem_nil, or_false]
    rintro (h | h | h) <;> exact b64Char_ne_dot _ h.symm
  | case4 a b c rest ih =>
    simp only [b64Encode, List.mem_cons]
    rintro (h | h | h | h | h)
    · exact b64Char_ne_dot _ h.symm
    · exact b64Char_ne_dot _ h.symm
    · exact b64Char_ne_dot _ h.symm
    · exact b64Char_ne_dot _ h.symm
    · exact ih h

theorem b64Decode_b64Encode (l : List Nat) (hl : ∀ x ∈ l, x < 256) :
    b64Decode (b64Encode l) = some l := by
  induction l using b64Encode.induct with
  | case1 => rfl
  | case2 a =>
    have ha : a < 256 := hl a (by simp)
    simp only [b64Encode, b64Decode,
      b64CharInv_b64Char _ (by omega : a / 4 < 64),
      b64CharInv_b64Char _ (by omega : a % 4 * 16 < 64)]
    simp only [Option.some.injEq, List.cons.injEq, and_true]
    omega
  | case3 a b =>
    have ha : a < 256 := hl a (by simp)
    have hb : b < 256 := hl b (by simp)
    simp only [b64Encode, b64Decode,
      b64CharInv_b64Char _ (by omega : a / 4 < 64),
      b64CharInv_b64Char _ (by omega : a % 4 * 16 + b / 16 < 64),
      b64CharInv_b64Char _ (by omega : b % 16 * 4 < 64)]
    simp only [Option.some.injEq, List.cons.injEq, and_true]
    constructor
    · omega
    · omega
  | case4 a b c rest ih =>
    have ha : a < 256 := hl a (by simp)
    have hb : b < 256 := hl b (by simp)
    have hc : c < 256 := hl c (by simp)
    have hrest : ∀ x ∈ rest, x < 256 := fun x hx => hl x (by simp [hx])
    simp only [b64Encode, b64Decode,
      b64CharInv_b64Char _ (by omega : a / 4 < 64),
      b64CharInv_b64Char _ (by omega : a % 4 * 16 + b / 16 < 64),
      b64CharInv_b64Char _ (by omega : b % 16 * 4 + c / 64 < 64),
      b64CharInv_b64Char _ (by omega : c % 64 < 64), ih hrest]
    simp only [Option.some.injEq, List.cons.injEq, and_true]
    refine ⟨by omega, by omega, by omega⟩

theorem b64DecodeStr_b64OfStr (s : List Char) : b64DecodeStr (b64OfStr s) = some s := by
  simp only [b64DecodeStr, b64OfStr, b64Decode_b64Encode _ (strBytes_lt s), Option.some_bind,
    bytesToStr_strBytes]

theorem b64OfStr_not_dot (s : List Char) : '.' ∉ b64OfStr s := b64Encode_not_dot _

theorem parseStrBody_escapeStr (s : List Char) (r : List Char) :
    parseStrBody (escapeStr s ++ ('"' :: r)) = some (s, r) := by
  induction s with
  | nil =>
    show parseStrBody ('"' :: r) = some ([], r)
    rw [parseStrBody.eq_def]
    rfl
  | cons c cs ih =>
    by_cases hc : c = '"' ∨ c = '\\'
    · rw [escapeStr, if_pos hc]
      simp [parseStrBody, ih]
    · push_neg at hc
      rw [escapeStr, if_neg (by tauto)]
      rw [List.cons_append, parseStrBody.eq_def]
      simp [hc.1, hc.2, ih]

theorem digitChar_isDigit (m : Nat) : (digitChar m).isDigit = true := by
  unfold digitChar
  split <;> decide

theorem natToDigits_ne_nil (n : Nat) : natToDigits n ≠ [] := by
  rw [natToDigits]
  split
  · simp
  · simp

theorem natToDigits_all_digits (n : Nat) : ∀ c ∈ natToDigits n, c.isDigit = true := by
  induction n using natToDigits.induct with
  | case1 n h =>
    rw [natToDigits, if_pos h]
    intro c hc
    rw [List.mem_singleton.1 hc]
    exact digitChar_isDigit n
  | case2 n h ih =>
    rw [natToDigits, if_neg h]
    intro c hc
    rcases List.mem_append.1 hc with h1 | h1
    · exact ih c h1
    · rw [List.mem_singleton.1 h1]
      exact digitChar_isDigit (n % 10)

theorem charToDigit_digitChar : ∀ m, m < 10 → charToDigit (digitChar m) = m := by decide

theorem parseDigitsAcc_digits (ds : List Char) (hds : ∀ c ∈ ds, c.isDigit = true)
    (r : List Char) (hr : digitHead r = false) :
    ∀ acc, parseDigitsAcc acc (ds ++ r) = (ds.foldl digitFold acc, r) := by
  induction ds with
  | nil =>
    intro acc
    simp only [List.nil_append, List.foldl_nil]
    cases r with
    | nil => rfl
    | cons c rest =>
      have hc : c.isDigit = false := hr
      simp [parseDigitsAcc, hc]
  | cons c ds ih =>
    intro acc
    have hc : c.isDigit = true := hds c (by simp)
    have hds2 : ∀ x ∈ ds, x.isDigit = true := fun x hx => hds x (by simp [hx])
    simp only [List.cons_append, parseDigitsAcc, hc, if_true, List.foldl_cons]
    exact ih hds2 _

theorem natToDigits_foldl (n : Nat) :
    ∀ acc, (natToDigits n).foldl digitFold acc = acc * 10 ^ (natToDigits n).length + n := by
  induction n using natToDigits.induct with
  | case1 n h =>
    intro acc
    rw [natToDigits, if_pos h]
    simp only [List.foldl_cons, List.foldl_nil, digitFold, List.length_singleton, pow_one]
    rw [charToDigit_digitChar n h]
  | case2 n h ih =>
    intro acc
    rw [natToDigits, if_neg h]
    rw [List.foldl_append, ih acc]
    simp only [List.foldl_cons, List.foldl_nil, digitFold, List.length_append,
      List.length_singleton, pow_succ]
    rw [charToDigit_digitChar (n % 10) (by omega), ← mul_assoc]
    generalize acc * 10 ^ (natToDigits (n / 10)).length = u
    omega

theorem parseNatChars_natToDigits (m : Nat) (r : List Char) (hr : digitHead r = false) :
    parseNatChars (natToDigits m ++ r) = some (m, r) := by
  obtain ⟨c, cs, hE⟩ : ∃ c cs, natToDigits m = c :: cs := by
    cases h : natToDigits m with
    | nil => exact absurd h (natToDigits_ne_nil m)
    | cons c cs => exact ⟨c, cs, rfl⟩
  have hdig := natToDigits_all_digits m
  have hc : c.isDigit = true := hdig c (by rw [hE]; simp)
  have hcs : ∀ x ∈ cs, x.isDigit = true := fun x hx => hdig x (by rw [hE]; simp [hx])
  rw [hE, List.cons_append]
  simp only [parseNatChars, hc, if_true]
  rw [parseDigitsAcc_digits cs hcs r hr]
  have hfold : cs.foldl digitFold (charToDigit c) = (natToDigits m).foldl digitFold 0 := by
    rw [hE]
    simp [List.foldl_cons, digitFold]
  rw [hfold, natToDigits_foldl m 0]
  simp

theorem parseNum_stringifyInt (n : Int) (r : List Char) (hr : digitHead r = false) :
    parseNum (stringifyInt n ++ r) = some (n, r) := by
  by_cases hn : n < 0
  · rw [stringifyInt, if_pos hn, List.cons_append]
    show parseNum ('-' :: (natToDigits n.natAbs ++ r)) = some (n, r)
    simp only [parseNum, parseNatChars_natToDigits n.natAbs r hr, Option.map_some']
    have : -(n.natAbs : Int) = n := by omega
    rw [this]
  · rw [stringifyInt, if_neg hn]
    obtain ⟨c, cs, hE⟩ : ∃ c cs, natToDigits n.natAbs = c :: cs := by
      cases h : natToDigits n.natAbs with
      | nil => exact absurd h (natToDigits_ne_nil _)
      | cons c cs => exact ⟨c, cs, rfl⟩
    have hc : c.isDigit = true := natToDigits_all_digits _ c (by rw [hE]; simp)
    unfold parseNum
    split
    · rename_i rest heq
      rw [hE, List.cons_append] at heq
      have : c = '-' := (List.cons.injEq _ _ _ _ ▸ heq).1
      rw [this] at hc
      exact absurd hc (by decide)
    · rw [parseNatChars_natToDigits n.natAbs r hr]
      simp only [Option.map_some']
      have : (n.natAbs : Int) = n := by omega
      rw [this]

theorem stringifyInt_head_not_quote (n : Int) :
    ∃ c cs, stringifyInt n = c :: cs ∧ c ≠ '"' := by
  rw [stringifyInt]
  split
  · exact ⟨'-', natToDigits n.natAbs, rfl, by decide⟩
  · obtain ⟨c, cs, hE⟩ : ∃ c cs, natToDigits n.natAbs = c :: cs := by
      cases h : natToDigits n.natAbs with
      | nil => exact absurd h (natToDigits_ne_nil _)
      | cons c cs => exact ⟨c, cs, rfl⟩
    have hc : c.isDigit = true := natToDigits_all_digits _ c (by rw [hE]; simp)
    refine ⟨c, cs, hE, fun h => ?_⟩
    rw [h] at hc
    exact absurd hc (by decide)

theorem parseVal_stringifyVal (v : JVal) (r : List Char) (hr : digitHead r = false) :
    parseVal (stringifyVal v ++ r) = some (v, r) := by
  cases v with
  | jstr s =>
    show parseVal (stringifyStr s ++ r) = _
    rw [stringifyStr, List.cons_append, List.append_assoc, List.singleton_append]
    show (parseStrBody (escapeStr s ++ '"' :: r)).map (fun p => (JVal.jstr p.1, p.2)) = _
    rw [parseStrBody_escapeStr]
    rfl
  | jnum n =>
    show parseVal (stringifyInt n ++ r) = _
    obtain ⟨c, cs, hE, hcq⟩ := stringifyInt_head_not_quote n
    unfold parseVal
    split
    · rename_i rest heq
      rw [hE, List.cons_append] at heq
      exact absurd (List.cons.injEq _ _ _ _ ▸ heq).1 hcq
    · rw [parseNum_stringifyInt n r hr]
      rfl

theorem stringifyEntries_cons₂ (a b : List Char × JVal) (l : JObj) :
    stringifyEntries (a :: b :: l) = entryChars a ++ ',' :: stringifyEntries (b :: l) := rfl

theorem parseEntries_stringifyEntries (o : JObj) (r : List Char) :
    o ≠ [] → ∀ fuel, o.length ≤ fuel →
      parseEntries fuel (stringifyEntries o ++ ('\x7d' :: r)) = some (o, '\x7d' :: r) := by
  induction o with
  | nil => exact fun ho => absurd rfl ho
  | cons kv os ih =>
    intro _ fuel hfuel
    obtain ⟨f, rfl⟩ : ∃ f, fuel = f + 1 := by
      cases fuel with
      | zero => simp at hfuel
      | succ f => exact ⟨f, rfl⟩
    obtain ⟨k, v⟩ := kv
    cases os with
    | nil =>
      show parseEntries (f + 1) (entryChars (k, v) ++ ('\x7d' :: r)) = _
      rw [entryChars, stringifyStr]
      simp only [List.cons_append, List.append_assoc, List.singleton_append]
      rw [parseEntries, parseStrBody_escapeStr]
      simp only [List.nil_append]
      rw [parseVal_stringifyVal v ('\x7d' :: r) rfl]
      rfl
    | cons kv2 os2 =>
      show parseEntries (f + 1)
        (stringifyEntries ((k, v) :: kv2 :: os2) ++ ('\x7d' :: r)) = _
      rw [stringifyEntries_cons₂, entryChars, stringifyStr]
      simp only [List.cons_append, List.append_assoc, List.singleton_append]
      rw [parseEntries, parseStrBody_escapeStr]
      simp only [List.nil_append]
      rw [parseVal_stringifyVal v (',' :: (stringifyEntries (kv2 :: os2) ++ '\x7d' :: r)) rfl]
      show (match parseEntries f (stringifyEntries (kv2 :: os2) ++ '\x7d' :: r) with
        | none => none
        | some (o, r5) => some ((k, v) :: o, r5)) = _
      rw [ih (by simp) f (by simp at hfuel ⊢; omega)]

theorem stringifyEntries_length (o : JObj) : o.length ≤ (stringifyEntries o).length := by
  induction o with
  | nil => simp [stringifyEntries]
  | cons kv os ih =>
    cases os with
    | nil =>
      show 1 ≤ (entryChars kv).length
      rw [entryChars, stringifyStr]
      simp
    | cons kv2 os2 =>
      rw [stringifyEntries_cons₂]
      simp only [List.length_cons, List.length_append]
      simp only [List.length_cons] at ih
      omega

theorem stringifyEntries_head (kv : List Char × JVal) (os : JObj) :
    ∃ t, stringifyEntries (kv :: os) = '"' :: t := by
  obtain ⟨k, v⟩ := kv
  cases os with
  | nil =>
    exact ⟨escapeStr k ++ ['"'] ++ (':' :: stringifyVal v), by
      show entryChars (k, v) = _
      rw [entryChars, stringifyStr]
      simp [List.cons_append, List.append_assoc]⟩
  | cons kv2 os2 =>
    refine ⟨escapeStr k ++ ['"'] ++ (':' :: stringifyVal v) ++
      ',' :: stringifyEntries (kv2 :: os2), ?_⟩
    rw [stringifyEntries_cons₂, entryChars, stringifyStr]
    simp [List.cons_append, List.append_assoc]

theorem parseObj_quote_head (t : List Char) :
    parseObj ('\x7b' :: '"' :: t) =
      match parseEntries ('"' :: t).length ('"' :: t) with
      | some (o, '\x7d' :: r2) => some (o, r2)
      | _ => none := rfl

theorem jsonParse_stringifyObj (o : JObj) : jsonParse (stringifyObj o) = some o := by
  cases o with
  | nil => rfl
  | cons kv os =>
    obtain ⟨t, ht⟩ := stringifyEntries_head kv os
    have hpe : parseEntries (stringifyEntries (kv :: os) ++ ['\x7d']).length
        (stringifyEntries (kv :: os) ++ ['\x7d']) = some (kv :: os, ['\x7d']) := by
      apply parseEntries_stringifyEntries (kv :: os) [] (by simp)
      have h1 := stringifyEntries_length (kv :: os)
      simp only [List.length_append, List.length_cons] at h1 ⊢
      omega
    have hobj : parseObj (stringifyObj (kv :: os)) = some (kv :: os, []) := by
      rw [stringifyObj, ht, List.cons_append, parseObj_quote_head, ← List.cons_append, ← ht,
        hpe]
      rfl
    unfold jsonParse
    rw [hobj]

theorem splitOnDot_no_dot (a : List Char) (h : '.' ∉ a) : splitOnDot a = [a] := by
  induction a with
  | nil => rfl
  | cons c rest ih =>
    have h1 : ¬ c = '.' := fun hcc => h (by simp [hcc])
    have h2 : '.' ∉ rest := fun hm => h (List.mem_cons_of_mem _ hm)
    rw [splitOnDot, if_neg h1, ih h2]

theorem splitOnDot_append (a t : List Char) (h : '.' ∉ a) :
    splitOnDot (a ++ '.' :: t) = a :: splitOnDot t := by
  induction a with
  | nil =>
    show splitOnDot ('.' :: t) = [] :: splitOnDot t
    rw [splitOnDot, if_pos rfl]
  | cons c rest ih =>
    have h1 : ¬ c = '.' := fun hcc => h (by simp [hcc])
    have h2 : '.' ∉ rest := fun hm => h (List.mem_cons_of_mem _ hm)
    rw [List.cons_append, splitOnDot, if_neg h1, ih h2]

theorem signData_not_dot (mac : List Nat → List Nat → List Nat) (secret data : List Char) :
    '.' ∉ signData mac secret data := b64Encode_not_dot _

theorem signJwt_eq (mac : List Nat → List Nat → List Nat) (secret issuer : List Char)
    (payload : JObj) (now : Int) :
    signJwt mac secret issuer payload now =
      b64OfStr (stringifyObj headerObj) ++ '.' ::
        (b64OfStr (stringifyObj
            (jsSpread [(str "iss", .jstr issuer), (str "iat", .jnum now)] payload)) ++ '.' ::
          b64Encode (mac (strBytes secret)
            (strBytes (b64OfStr (stringifyObj headerObj) ++ '.' ::
              b64OfStr (stringifyObj
                (jsSpread [(str "iss", .jstr issuer), (str "iat", .jnum now)] payload)))))) := by
  simp only [signJwt, List.append_assoc, List.cons_append]

theorem verifyAndDecodeJwt_signJwt (mac : List Nat → List Nat → List Nat)
    (secret issuer : List Char) (payload : JObj) (iat now : Int) :
    verifyAndDecodeJwt mac secret (signJwt mac secret issuer payload iat) now =
      (match assocGet (jsSpread [(str "iss", .jstr issuer), (str "iat", .jnum iat)] payload)
          (str "exp") with
       | some expVal =>
         if jsTruthy expVal && jsLtNum expVal now then none
         else some (jsSpread [(str "iss", .jstr issuer), (str "iat", .jnum iat)] payload)
       | none => some (jsSpread [(str "iss", .jstr issuer), (str "iat", .jnum iat)] payload)) := by
  rw [signJwt_eq]
  unfold verifyAndDecodeJwt
  rw [splitOnDot_append _ _ (b64OfStr_not_dot _), splitOnDot_append _ _ (b64OfStr_not_dot _),
    splitOnDot_no_dot _ (b64Encode_not_dot _)]
  simp only [b64DecodeStr_b64OfStr, jsonParse_stringifyObj, ne_eq, not_true_eq_false,
    if_false, ite_false]

theorem parseSignedCookie_createSignedCookie (mac : List Nat → List Nat → List Nat)
    (secret : List Char) (p : JObj) :
    parseSignedCookie mac secret (createSignedCookie mac secret p) = some p := by
  unfold createSignedCookie parseSignedCookie verifyAndDecodeData
  rw [splitOnDot_append _ _ (b64OfStr_not_dot _), splitOnDot_no_dot _ (signData_not_dot _ _ _)]
  simp only [b64DecodeStr_b64OfStr, jsonParse_stringifyObj, ne_eq, not_true_eq_false,
    if_false, ite_false]

theorem assocGet_cons_eq {α : Type} (k : List Char) (v : α) (rest : List (List Char × α)) :
    assocGet ((k, v) :: rest) k = some v := by
  show (if k = k then some v else assocGet rest k) = some v
  rw [if_pos rfl]

theorem assocGet_cons_ne {α : Type} (k2 k : List Char) (v : α) (rest : List (List Char × α))
    (h : k2 ≠ k) : assocGet ((k2, v) :: rest) k = assocGet rest k := by
  show (if k2 = k then some v else assocGet rest k) = _
  rw [if_neg h]

theorem assocGet_eq_none {α : Type} (m : List (List Char × α)) (k : List Char) :
    assocGet m k = none ↔ ∀ p ∈ m, p.1 ≠ k := by
  induction m with
  | nil =>
    constructor
    · intro _ p hp
      exact absurd hp (List.not_mem_nil p)
    · intro _
      rfl
  | cons kv rest ih =>
    obtain ⟨k2, v⟩ := kv
    constructor
    · intro h p hp
      by_cases hk : k2 = k
      · rw [hk, assocGet_cons_eq] at h
        exact absurd h (by simp)
      · rw [assocGet_cons_ne _ _ _ _ hk] at h
        rcases List.mem_cons.1 hp with rfl | hp2
        · exact hk
        · exact ih.1 h p hp2
    · intro h
      have hk : k2 ≠ k := h (k2, v) (List.mem_cons_self _ _)
      rw [assocGet_cons_ne _ _ _ _ hk]
      exact ih.2 (fun p hp => h p (List.mem_cons_of_mem _ hp))

theorem jsSpread_two (k1 k2 : List Char) (v1 v2 : JVal) (upd : JObj)
    (h1 : assocGet upd k1 = none) (h2 : assocGet upd k2 = none) :
    jsSpread [(k1, v1), (k2, v2)] upd = (k1, v1) :: (k2, v2) :: upd := by
  have hfil : upd.filter (fun kv => (assocGet [(k1, v1), (k2, v2)] kv.1).isNone) = upd := by
    apply List.filter_eq_self.2
    intro kv hkv
    have e1 : kv.1 ≠ k1 := fun h => ((assocGet_eq_none upd k1).1 h1 kv hkv) h
    have e2 : kv.1 ≠ k2 := fun h => ((assocGet_eq_none upd k2).1 h2 kv hkv) h
    show (assocGet [(k1, v1), (k2, v2)] kv.1).isNone = true
    rw [assocGet_cons_ne _ _ _ _ (fun h => e1 h.symm),
      assocGet_cons_ne _ _ _ _ (fun h => e2 h.symm)]
    rfl
  unfold jsSpread
  rw [List.map_cons, List.map_cons, List.map_nil]
  simp only [h1, h2]
  rw [hfil]
  rfl

theorem assocGet_not_mem {α : Type} (m : List (List Char × α)) (k : List Char)
    (h : k ∉ m.map Prod.fst) : assocGet m k = none := by
  rw [assocGet_eq_none]
  intro p hp hpk
  exact h (hpk ▸ List.mem_map_of_mem Prod.fst hp)

theorem assocGet_filter {α : Type} (m : List (List Char × α)) (p : α → Bool)
    (k : List Char) (r : α) (hnd : (m.map Prod.fst).Nodup) :
    assocGet (m.filter (fun kv => p kv.2)) k = some r ↔
      assocGet m k = some r ∧ p r = true := by
  induction m with
  | nil => simp [assocGet]
  | cons kv rest ih =>
    obtain ⟨k2, v⟩ := kv
    rw [List.map_cons, List.nodup_cons] at hnd
    obtain ⟨hk2, hnd2⟩ := hnd
    rw [List.filter_cons]
    by_cases hp : p v = true
    · rw [if_pos (by simpa using hp)]
      by_cases hk : k2 = k
      · subst hk
        rw [assocGet_cons_eq, assocGet_cons_eq]
        constructor
        · intro h
          injection h with h
          exact ⟨by rw [h], by rw [← h]; exact hp⟩
        · rintro ⟨h, _⟩
          exact h
      · rw [assocGet_cons_ne _ _ _ _ hk, assocGet_cons_ne _ _ _ _ hk]
        exact ih hnd2
    · rw [if_neg (by simpa using hp)]
      by_cases hk : k2 = k
      · subst hk
        have hfil : assocGet (rest.filter (fun kv => p kv.2)) k2 = none := by
          apply assocGet_not_mem
          intro hmem
          obtain ⟨q, hq, hqk⟩ := List.mem_map.1 hmem
          have hq2 : q.1 ∈ rest.map Prod.fst :=
            List.mem_map_of_mem Prod.fst (List.mem_of_mem_filter hq)
          rw [hqk] at hq2
          exact hk2 hq2
        rw [hfil, assocGet_cons_eq]
        constructor
        · intro h
          exact absurd h (by simp)
        · rintro ⟨h, hpr⟩
          injection h with h
          rw [← h] at hpr
          exact absurd hpr (by simp [hp])
      · rw [assocGet_cons_ne _ _ _ _ hk]
        exact ih hnd2

/-- Claim C1: for every claims mapping (a mapping binds each claim name
at most once and does not itself bind the injected `iss`/`iat`) and every
secret, signing with
`signJwt` and verifying the three-segment artifact with
`verifyAndDecodeJwt` under the same secret, at any instant strictly before
the mapping's `exp`, succeeds and returns exactly the claims plus the
always-injected `iss` and `iat`. -/
theorem c1_sign_verify_roundtrip
    (mac : List Nat → List Nat → List Nat) (secret issuer : List Char)
    (claims : JObj) (iat expT now : Int)
    (_hnd : (claims.map Prod.fst).Nodup)
    (hiss : assocGet claims (str "iss") = none)
    (hiat : assocGet claims (str "iat") = none)
    (hexp : assocGet claims (str "exp") = some (.jnum expT))
    (hnow : now < expT) :
    verifyAndDecodeJwt mac secret (signJwt mac secret issuer claims iat) now =
      some ((str "iss", JVal.jstr issuer) :: (str "iat", JVal.jnum iat) :: claims) := by
  rw [verifyAndDecodeJwt_signJwt, jsSpread_two _ _ _ _ _ hiss hiat,
    assocGet_cons_ne _ _ _ _ (by decide), assocGet_cons_ne _ _ _ _ (by decide), hexp]
  have hlt : jsLtNum (.jnum expT) now = false := by
    simp only [jsLtNum, decide_eq_false_iff_not]
    omega
  simp [hlt]

theorem c1_witness :
    verifyAndDecodeJwt macExample (str "sec")
      (signJwt macExample (str "sec") (str "http://localhost:8000")
        [(str "type", .jstr (str "authorization_code")), (str "exp", .jnum 1000)] 50) 900 =
      some ((str "iss", JVal.jstr (str "http://localhost:8000")) ::
        (str "iat", JVal.jnum 50) ::
        [(str "type", .jstr (str "authorization_code")), (str "exp", .jnum 1000)]) :=
  c1_sign_verify_roundtrip macExample (str "sec") (str "http://localhost:8000")
    [(str "type", .jstr (str "authorization_code")), (str "exp", .jnum 1000)]
    50 1000 900 (by decide) (by decide) (by decide) (by decide) (by decide)

/-- Claim C2: an input whose third dot-segment differs from the recomputed
base64url HMAC tag over its first two segments is rejected by
`verifyAndDecodeJwt`, at every instant and whatever the payload segment
holds: the signature comparison precedes any payload inspection. -/
theorem c2_signature_mismatch_rejected
    (mac : List Nat → List Nat → List Nat) (secret token : List Char) (now : Int)
    (h p s : List Char)
    (hsplit : splitOnDot token = [h, p, s])
    (hneq : s ≠ b64Encode (mac (strBytes secret) (strBytes (h ++ '.' :: p)))) :
    verifyAndDecodeJwt mac secret token now = none := by
  unfold verifyAndDecodeJwt
  rw [hsplit]
  simp only [if_pos hneq]

theorem c2_witness :
    splitOnDot (str "a.b.c") = [str "a", str "b", str "c"] ∧
    str "c" ≠ b64Encode (macExample (strBytes (str "sec")) (strBytes (str "a" ++ '.' :: str "b"))) ∧
    verifyAndDecodeJwt macExample (str "sec") (str "a.b.c") 7 = none :=
  ⟨by decide, by decide,
    c2_signature_mismatch_rejected macExample (str "sec") (str "a.b.c") 7
      (str "a") (str "b") (str "c") (by decide) (by decide)⟩

/-- Claim C3 as stated is false: with `exp = 5`, verification at
`now = 5` succeeds (the source tests `payload.exp < now`, not `<=`),
while the claim demands failure at `now = T`. -/
theorem c3_counterexample :
    verifyAndDecodeJwt macExample (str "k")
      (signJwt macExample (str "k") (str "i") [(str "exp", .jnum 5)] 1) 5 =
      some [(str "iss", .jstr (str "i")), (str "iat", .jnum 1), (str "exp", .jnum 5)] := by
  rw [verifyAndDecodeJwt_signJwt]
  decide

/-- Claim C3 (amended): a signed artifact whose full payload carries a
nonzero `exp = T` verifies successfully at `now = T - 1` and still at
`now = T`, and fails only from `now = T + 1` on. -/
theorem c3_expiry_boundary
    (mac : List Nat → List Nat → List Nat) (secret issuer : List Char)
    (claims : JObj) (iat T : Int)
    (_hnd : (claims.map Prod.fst).Nodup)
    (hexp : assocGet (jsSpread [(str "iss", .jstr issuer), (str "iat", .jnum iat)] claims)
      (str "exp") = some (.jnum T))
    (hT : T ≠ 0) :
    verifyAndDecodeJwt mac secret (signJwt mac secret issuer claims iat) (T - 1) =
        some (jsSpread [(str "iss", .jstr issuer), (str "iat", .jnum iat)] claims) ∧
    verifyAndDecodeJwt mac secret (signJwt mac secret issuer claims iat) T =
        some (jsSpread [(str "iss", .jstr issuer), (str "iat", .jnum iat)] claims) ∧
    verifyAndDecodeJwt mac secret (signJwt mac secret issuer claims iat) (T + 1) = none := by
  refine ⟨?_, ?_, ?_⟩
  · rw [verifyAndDecodeJwt_signJwt, hexp]
    have hlt : jsLtNum (.jnum T) (T - 1) = false := by
      simp only [jsLtNum, decide_eq_false_iff_not]
      omega
    simp [hlt]
  · rw [verifyAndDecodeJwt_signJwt, hexp]
    have hlt : jsLtNum (.jnum T) T = false := by
      simp only [jsLtNum, decide_eq_false_iff_not]
      omega
    simp [hlt]
  · rw [verifyAndDecodeJwt_signJwt, hexp]
    have htr : jsTruthy (.jnum T) = true := by simp [jsTruthy, hT]
    have hlt : jsLtNum (.jnum T) (T + 1) = true := by
      simp only [jsLtNum, decide_eq_true_eq]
      omega
    simp [htr, hlt]

theorem c3_witness :
    (verifyAndDecodeJwt macExample (str "k")
        (signJwt macExample (str "k") (str "i") [(str "exp", .jnum 7)] 1) 6 =
      some [(str "iss", .jstr (str "i")), (str "iat", .jnum 1), (str "exp", .jnum 7)]) ∧
    (verifyAndDecodeJwt macExample (str "k")
        (signJwt macExample (str "k") (str "i") [(str "exp", .jnum 7)] 1) 7 =
      some [(str "iss", .jstr (str "i")), (str "iat", .jnum 1), (str "exp", .jnum 7)]) ∧
    verifyAndDecodeJwt macExample (str "k")
      (signJwt macExample (str "k") (str "i") [(str "exp", .jnum 7)] 1) 8 = none := by
  have h := c3_expiry_boundary macExample (str "k") (str "i")
    [(str "exp", .jnum 7)] 1 7 (by decide) (by decide) (by decide)
  refine ⟨?_, ?_, ?_⟩
  · have h1 := h.1
    rw [show (7 : Int) - 1 = 6 from rfl] at h1
    rw [h1]
    decide
  · rw [h.2.1]
    decide
  · have h3 := h.2.2
    rw [show (7 : Int) + 1 = 8 from rfl] at h3
    exact h3

/-- Claim C5: under method `"S256"`, `verifyCodeChallenge` succeeds exactly
when the challenge equals the unpadded base64url encoding of the SHA-256
digest of the verifier, and returns false for every other challenge. -/
theorem c5_pkce_s256 (sha : List Nat → List Nat) (v challenge : List Char) :
    verifyCodeChallenge sha v challenge (str "S256") = true ↔
      challenge = b64Encode (sha (strBytes v)) := by
  unfold verifyCodeChallenge
  rw [if_neg (by decide : ¬ str "S256" = str "plain"), if_pos rfl]
  simp [decide_eq_true_eq, eq_comm]

/-- Claim C6: under any method other than `"plain"` and `"S256"`,
`verifyCodeChallenge` returns false (a value, not an exception), whatever
the verifier and challenge are. -/
theorem c6_unknown_method (sha : List Nat → List Nat) (v c m : List Char)
    (h1 : m ≠ str "plain") (h2 : m ≠ str "S256") :
    verifyCodeChallenge sha v c m = false := by
  unfold verifyCodeChallenge
  rw [if_neg h1, if_neg h2]

theorem c6_witness :
    verifyCodeChallenge shaExample (str "anything") (str "whatever") (str "unknown") = false :=
  c6_unknown_method shaExample (str "anything") (str "whatever") (str "unknown")
    (by decide) (by decide)

/-- Claim C7 as stated is false: sweeping at `now = 0` a registry holding
access-token records expiring at `-100`, `0` and `100` leaves the record
with `expires_at = 0` retrievable (the source removes only
`expires_at < now`), while the claim demands its removal. -/
theorem c7_counterexample :
    getAccessToken
      (cleanupExpiredTokens
        { authorizationCodes := []
          accessTokens :=
            [(str "t1", ⟨str "t1", str "c", str "u", str "s", -100⟩),
             (str "t2", ⟨str "t2", str "c", str "u", str "s", 0⟩),
             (str "t3", ⟨str "t3", str "c", str "u", str "s", 100⟩)]
          refreshTokens := [] } 0)
      (str "t2") = some ⟨str "t2", str "c", str "u", str "s", 0⟩ := by decide

/-- Claim C7 (amended): the sweep removes exactly the records with
`expires_at < now` from each of the three stores: afterwards a record is
retrievable iff it was retrievable before and `now ≤ expires_at`; in
particular, of records expiring at T-100, T and T+100, sweeping at T keeps
both the T and the T+100 record. -/
theorem c7_cleanup_strict (db : MemoryDBState) (now : Int)
    (hnd1 : (db.authorizationCodes.map Prod.fst).Nodup)
    (hnd2 : (db.accessTokens.map Prod.fst).Nodup)
    (hnd3 : (db.refreshTokens.map Prod.fst).Nodup) :
    (∀ k r, getAuthorizationCode (cleanupExpiredTokens db now) k = some r ↔
        getAuthorizationCode db k = some r ∧ now ≤ r.expires_at) ∧
    (∀ k r, getAccessToken (cleanupExpiredTokens db now) k = some r ↔
        getAccessToken db k = some r ∧ now ≤ r.expires_at) ∧
    (∀ k r, getRefreshToken (cleanupExpiredTokens db now) k = some r ↔
        getRefreshToken db k = some r ∧ now ≤ r.expires_at) := by
  refine ⟨fun k r => ?_, fun k r => ?_, fun k r => ?_⟩
  · unfold getAuthorizationCode cleanupExpiredTokens
    show assocGet (db.authorizationCodes.filter (fun kv => !decide (kv.2.expires_at < now))) k = some r ↔ _
    rw [assocGet_filter db.authorizationCodes (fun rec => !decide (rec.expires_at < now)) k r hnd1]
    constructor
    · rintro ⟨hg, hp⟩
      refine ⟨hg, ?_⟩
      simp only [Bool.not_eq_true', decide_eq_false_iff_not] at hp
      omega
    · rintro ⟨hg, hp⟩
      refine ⟨hg, ?_⟩
      simp only [Bool.not_eq_true', decide_eq_false_iff_not]
      omega
  · unfold getAccessToken cleanupExpiredTokens
    show assocGet (db.accessTokens.filter (fun kv => !decide (kv.2.expires_at < now))) k = some r ↔ _
    rw [assocGet_filter db.accessTokens (fun rec => !decide (rec.expires_at < now)) k r hnd2]
    constructor
    · rintro ⟨hg, hp⟩
      refine ⟨hg, ?_⟩
      simp only [Bool.not_eq_true', decide_eq_false_iff_not] at hp
      omega
    · rintro ⟨hg, hp⟩
      refine ⟨hg, ?_⟩
      simp only [Bool.not_eq_true', decide_eq_false_iff_not]
      omega
  · unfold getRefreshToken cleanupExpiredTokens
    show assocGet (db.refreshTokens.filter (fun kv => !decide (kv.2.expires_at < now))) k = some r ↔ _
    rw [assocGet_filter db.refreshTokens (fun rec => !decide (rec.expires_at < now)) k r hnd3]
    constructor
    · rintro ⟨hg, hp⟩
      refine ⟨hg, ?_⟩
      simp only [Bool.not_eq_true', decide_eq_false_iff_not] at hp
      omega
    · rintro ⟨hg, hp⟩
      refine ⟨hg, ?_⟩
      simp only [Bool.not_eq_true', decide_eq_false_iff_not]
      omega

theorem c7_witness :
    (getAccessToken
        (cleanupExpiredTokens
          { authorizationCodes := []
            accessTokens := [(str "a", ⟨str "a", str "c", str "u", str "s", 40⟩)]
            refreshTokens := [] } 30)
        (str "a") = some ⟨str "a", str "c", str "u", str "s", 40⟩ ↔
      getAccessToken
        { authorizationCodes := []
          accessTokens := [(str "a", ⟨str "a", str "c", str "u", str "s", 40⟩)]
          refreshTokens := [] } (str "a") = some ⟨str "a", str "c", str "u", str "s", 40⟩ ∧
        (30 : Int) ≤ (⟨str "a", str "c", str "u", str "s", 40⟩ : AccessToken).expires_at) :=
  (c7_cleanup_strict
    { authorizationCodes := []
      accessTokens := [(str "a", ⟨str "a", str "c", str "u", str "s", 40⟩)]
      refreshTokens := [] } 30 (by decide) (by decide) (by decide)).2.1
    (str "a") ⟨str "a", str "c", str "u", str "s", 40⟩

/-- Claim C8 as stated is false: `"x"` fails as malformed (one segment)
and `"a.b.c"` fails as a signature mismatch (three segments, wrong tag),
two different reasons, yet `verify_authorization_code` returns the one
identical generic error value for both, so the failures are not
distinguishable by the caller. -/
theorem c8_counterexample :
    (splitOnDot (str "x")).length ≠ 3 ∧
    splitOnDot (str "a.b.c") = [str "a", str "b", str "c"] ∧
    str "c" ≠ b64Encode (macExample (strBytes (str "k")) (strBytes (str "a" ++ '.' :: str "b"))) ∧
    verifyAuthorizationCodeTool macExample (str "k") (str "x") 0 =
      verifyAuthorizationCodeTool macExample (str "k") (str "a.b.c") 0 ∧
    verifyAuthorizationCodeTool macExample (str "k") (str "x") 0 =
      .invalid (str "Invalid or expired authorization code") := by decide

/-- Claim C8 (amended): every failure of authorization-grant verification
is reported as the single undifferentiated value — `null` from
`verifyAndDecodeJwt` and the one generic error object from the tool layer —
so any two failing verifications return equal, indistinguishable results. -/
theorem c8_failures_undifferentiated
    (mac : List Nat → List Nat → List Nat) (secret c1 c2 : List Char)
    (n1 n2 : Int) (e1 e2 : List Char)
    (h1 : verifyAuthorizationCodeTool mac secret c1 n1 = .invalid e1)
    (h2 : verifyAuthorizationCodeTool mac secret c2 n2 = .invalid e2) :
    e1 = str "Invalid or expired authorization code" ∧
    verifyAuthorizationCodeTool mac secret c1 n1 = verifyAuthorizationCodeTool mac secret c2 n2 := by
  have key : ∀ (c : List Char) (n : Int) (e : List Char),
      verifyAuthorizationCodeTool mac secret c n = .invalid e →
      e = str "Invalid or expired authorization code" := by
    intro c n e h
    cases hv : verifyAndDecodeJwt mac secret c n with
    | none =>
      have hr : verifyAuthorizationCodeTool mac secret c n =
          .invalid (str "Invalid or expired authorization code") := by
        unfold verifyAuthorizationCodeTool
        rw [hv]
      rw [hr] at h
      injection h with h
      exact h.symm
    | some payload =>
      by_cases ht : assocGet payload (str "type") ≠ some (.jstr (str "authorization_code"))
      · have hr : verifyAuthorizationCodeTool mac secret c n =
            .invalid (str "Invalid or expired authorization code") := by
          unfold verifyAuthorizationCodeTool
          rw [hv]
          simp only [if_pos ht]
        rw [hr] at h
        injection h with h
        exact h.symm
      · have hr : verifyAuthorizationCodeTool mac secret c n =
            .valid (assocGet payload (str "client_id")) (assocGet payload (str "user_id"))
              (assocGet payload (str "redirect_uri")) (assocGet payload (str "scope"))
              (assocGet payload (str "code_challenge"))
              (assocGet payload (str "code_challenge_method"))
              (assocGet payload (str "nonce")) := by
          unfold verifyAuthorizationCodeTool
          rw [hv]
          simp only [if_neg ht]
        rw [hr] at h
        exact VerifyCodeResult.noConfusion h
  have k1 := key c1 n1 e1 h1
  have k2 := key c2 n2 e2 h2
  refine ⟨k1, ?_⟩
  rw [h1, h2, k1, k2]

theorem c8_witness :
    str "Invalid or expired authorization code" = str "Invalid or expired authorization code" ∧
    verifyAuthorizationCodeTool macExample (str "k2") (str "x") 0 =
      verifyAuthorizationCodeTool macExample (str "k2") (str "a.b.c") 0 :=
  c8_failures_undifferentiated macExample (str "k2") (str "x") (str "a.b.c") 0 0
    (str "Invalid or expired authorization code") (str "Invalid or expired authorization code")
    (by decide) (by decide)

/-- Claim C9: opening a sealed session capsule under the same secret
returns the sealed payload, and a capsule whose tag segment differs from
the recomputed tag, or which does not split into exactly two dot-joined
segments, opens to an invalid result. -/
theorem c9_cookie_capsule
    (mac : List Nat → List Nat → List Nat) (secret : List Char) (p : JObj)
    (cookie d t c2 : List Char)
    (hsplit : splitOnDot cookie = [d, t])
    (htag : t ≠ signData mac secret d)
    (hlen : (splitOnDot c2).length ≠ 2) :
    parseSignedCookie mac secret (createSignedCookie mac secret p) = some p ∧
    parseSignedCookie mac secret cookie = none ∧
    parseSignedCookie mac secret c2 = none := by
  refine ⟨parseSignedCookie_createSignedCookie mac secret p, ?_, ?_⟩
  · unfold parseSignedCookie verifyAndDecodeData
    rw [hsplit]
    simp only [if_pos htag]
  · unfold parseSignedCookie verifyAndDecodeData
    rcases hl : splitOnDot c2 with _ | ⟨a, _ | ⟨b, _ | ⟨e3, l4⟩⟩⟩
    · rfl
    · rfl
    · rw [hl] at hlen
      exact absurd rfl hlen
    · rfl

theorem c9_witness :
    (splitOnDot (str "a.b") = [str "a", str "b"] ∧
      str "b" ≠ signData macExample (str "sec") (str "a") ∧
      (splitOnDot (str "abc")).length ≠ 2) ∧
    parseSignedCookie macExample (str "sec")
        (createSignedCookie macExample (str "sec") [(str "state", .jstr (str "s1"))]) =
      some [(str "state", .jstr (str "s1"))] ∧
    parseSignedCookie macExample (str "sec") (str "a.b") = none ∧
    parseSignedCookie macExample (str "sec") (str "abc") = none :=
  ⟨⟨by decide, by decide, by decide⟩,
    c9_cookie_capsule macExample (str "sec") [(str "state", .jstr (str "s1"))]
      (str "a.b") (str "a") (str "b") (str "abc") (by decide) (by decide) (by decide)⟩

/-- Claim C10: a correctly signed three-segment artifact whose payload
carries no `exp` claim, or carries `exp = 0`, is never rejected as
expired: it verifies successfully at every instant (`payload.exp` is
falsy, so the expiry branch is never taken). -/
theorem c10_no_exp_never_expires
    (mac : List Nat → List Nat → List Nat) (secret hseg : List Char)
    (p : JObj) (now : Int)
    (_hnd : (p.map Prod.fst).Nodup)
    (hh : '.' ∉ hseg)
    (hexp : assocGet p (str "exp") = none ∨ assocGet p (str "exp") = some (.jnum 0)) :
    verifyAndDecodeJwt mac secret
      (hseg ++ '.' :: (b64OfStr (stringifyObj p) ++ '.' ::
        b64Encode (mac (strBytes secret)
          (strBytes (hseg ++ '.' :: b64OfStr (stringifyObj p)))))) now = some p := by
  unfold verifyAndDecodeJwt
  rw [splitOnDot_append _ _ hh, splitOnDot_append _ _ (b64OfStr_not_dot _),
    splitOnDot_no_dot _ (b64Encode_not_dot _)]
  simp only [b64DecodeStr_b64OfStr, jsonParse_stringifyObj, ne_eq, not_true_eq_false,
    if_false, ite_false]
  rcases hexp with h | h
  · rw [h]
  · rw [h]
    simp [jsTruthy]

theorem c10_witness :
    verifyAndDecodeJwt macExample (str "sec")
      (str "hdr" ++ '.' :: (b64OfStr (stringifyObj [(str "sub", JVal.jstr (str "u1"))]) ++ '.' :: b64Encode (macExample (strBytes (str "sec")) (strBytes (str "hdr" ++ '.' :: b64OfStr (stringifyObj [(str "sub", JVal.jstr (str "u1"))]))))))
      987654321 = some [(str "sub", JVal.jstr (str "u1"))] :=
  c10_no_exp_never_expires macExample (str "sec") (str "hdr")
    [(str "sub", JVal.jstr (str "u1"))] 987654321 (by decide) (by decide) (Or.inl (by decide))
